import Mathlib

/-!
Verification of the planning-and-execution loop of the MCP timesheet
assistant client (`client.py`).

The development shallowly embeds:
 - a model of Python's `json.loads` on strings (`loadsL` / `loads`),
   restricted to the strict JSON grammar that the CPython decoder accepts
   (plus the `NaN` / `Infinity` / `-Infinity` constants);
 - `parse_json_object` (client.py, lines 104-117);
 - the per-instruction planning/execution loop of `run_agent`
   (client.py, lines 188-244) as a fuel-indexed step function over an
   explicit state, with the language model and the MCP session injected
   as functions (`complete_json`, `call_tool`).

Modelling conventions:
 - decoded Python values are represented by `JValue`; a JSON number is
   kept as its source lexeme (no claim depends on numeric arithmetic);
 - Python `dict`s are association lists in first-insertion order with
   later duplicate keys overwriting the stored value, as CPython does;
 - Python truthiness (`or` defaulting) is `JValue.truthy`.
-/

/-- A decoded JSON value (the result of Python's `json.loads`).
Numbers keep their source lexeme; objects are insertion-ordered
association lists with unique keys. -/
inductive JValue where
  | null : JValue
  | bool : Bool → JValue
  | num : String → JValue
  | str : String → JValue
  | arr : List JValue → JValue
  | obj : List (String × JValue) → JValue

/-- JSON whitespace accepted by the Python decoder: space, tab, LF, CR. -/
def isJsonWs (c : Char) : Bool :=
  c = ' ' ∨ c = '\t' ∨ c = '\n' ∨ c = '\r'

/-- Drop leading JSON whitespace. -/
def skipWs : List Char → List Char
  | [] => []
  | c :: cs => if isJsonWs c then skipWs cs else c :: cs

/-- Value of one hex digit, if the character is one. -/
def hexVal (c : Char) : Option Nat :=
  if '0' ≤ c ∧ c ≤ '9' then some (c.toNat - '0'.toNat)
  else if 'a' ≤ c ∧ c ≤ 'f' then some (c.toNat - 'a'.toNat + 10)
  else if 'A' ≤ c ∧ c ≤ 'F' then some (c.toNat - 'A'.toNat + 10)
  else none

/-- Combine four hex digits into a code point. -/
def hex4 (a b c d : Char) : Option Nat :=
  match hexVal a, hexVal b, hexVal c, hexVal d with
  | some x, some y, some z, some w => some (((x * 16 + y) * 16 + z) * 16 + w)
  | _, _, _, _ => none

/-- The single-character JSON escapes. -/
def escChar (e : Char) : Option Char :=
  if e = '"' then some '"'
  else if e = '\\' then some '\\'
  else if e = '/' then some '/'
  else if e = 'b' then some '\x08'
  else if e = 'f' then some '\x0c'
  else if e = 'n' then some '\n'
  else if e = 'r' then some '\r'
  else if e = 't' then some '\t'
  else none

/-- Parse the body of a JSON string literal (after the opening quote),
returning the decoded characters and the input after the closing quote.
Strict mode: raw control characters below U+0020 are rejected, as in
Python's default decoder. `\uXXXX` maps to the code point directly
(surrogate pairs are not recombined; no claim exercises them). -/
def parseStringBody : List Char → Option (List Char × List Char)
  | [] => none
  | '"' :: rest => some ([], rest)
  | '\\' :: 'u' :: a :: b :: c :: d :: rest =>
    match hex4 a b c d with
    | some n =>
      (parseStringBody rest).map (fun p => (Char.ofNat n :: p.1, p.2))
    | none => none
  | '\\' :: e :: rest =>
    match escChar e with
    | some ch => (parseStringBody rest).map (fun p => (ch :: p.1, p.2))
    | none => none
  | c :: rest =>
    if c.toNat < 0x20 then none
    else (parseStringBody rest).map (fun p => (c :: p.1, p.2))

/-- Optional fraction part `.digits` of a JSON number. -/
def parseFrac : List Char → Option (List Char × List Char)
  | '.' :: t =>
    let p := t.span Char.isDigit
    if p.1 = [] then none else some ('.' :: p.1, p.2)
  | cs => some ([], cs)

/-- Optional exponent part `[eE][+-]?digits` of a JSON number. -/
def parseExp : List Char → Option (List Char × List Char)
  | [] => some ([], [])
  | e :: t =>
    if e = 'e' ∨ e = 'E' then
      let sgn : List Char × List Char :=
        match t with
        | c :: tt => if c = '+' ∨ c = '-' then ([c], tt) else ([], t)
        | [] => ([], [])
      let p := sgn.2.span Char.isDigit
      if p.1 = [] then none else some (e :: (sgn.1 ++ p.1), p.2)
    else some ([], e :: t)

/-- Parse a JSON number token (strict grammar: optional minus, integer
part without leading zeros, optional fraction, optional exponent),
returning its lexeme and the rest of the input. -/
def parseNumberTok (cs : List Char) : Option (List Char × List Char) :=
  let neg : List Char × List Char :=
    match cs with
    | '-' :: t => (['-'], t)
    | _ => ([], cs)
  match neg.2 with
  | [] => none
  | c :: _ =>
    if c.isDigit then
      let ip := neg.2.span Char.isDigit
      if 1 < ip.1.length ∧ ip.1.head? = some '0' then none
      else
        match parseFrac ip.2 with
        | none => none
        | some (fp, cs3) =>
          match parseExp cs3 with
          | none => none
          | some (ep, cs4) => some (neg.1 ++ ip.1 ++ fp ++ ep, cs4)
    else none

/-- Literal keyword helper: consume `w` if it heads the input. -/
def lit (w : List Char) (v : JValue) (cs : List Char) :
    Option (JValue × List Char) :=
  if w.isPrefixOf cs then some (v, cs.drop w.length) else none

/-- Insert into a Python-dict association list: a repeated key keeps its
original position and takes the new value, otherwise append. -/
def insertKV (acc : List (String × JValue)) (k : String) (v : JValue) :
    List (String × JValue) :=
  match acc with
  | [] => [(k, v)]
  | (k', v') :: rest =>
    if k' = k then (k', v) :: rest else (k', v') :: insertKV rest k v

mutual

/-- Fuel-indexed JSON value parser; the entry point supplies ample fuel,
so the fuel never runs out on inputs the Python decoder accepts. -/
def parseValue : Nat → List Char → Option (JValue × List Char)
  | 0, _ => none
  | fuel + 1, cs =>
    match cs with
    | [] => none
    | '"' :: rest =>
      (parseStringBody rest).map (fun p => (JValue.str (String.mk p.1), p.2))
    | '{' :: rest => parseObjFields fuel (skipWs rest) []
    | '[' :: rest => parseArrElems fuel (skipWs rest) []
    | c :: _ =>
      if c = 't' then lit ['t', 'r', 'u', 'e'] (JValue.bool true) cs
      else if c = 'f' then lit ['f', 'a', 'l', 's', 'e'] (JValue.bool false) cs
      else if c = 'n' then lit ['n', 'u', 'l', 'l'] JValue.null cs
      else if c = 'N' then lit ['N', 'a', 'N'] (JValue.num "NaN") cs
      else if c = 'I' then
        lit ['I', 'n', 'f', 'i', 'n', 'i', 't', 'y'] (JValue.num "Infinity") cs
      else if c = '-' ∧
          ['-', 'I', 'n', 'f', 'i', 'n', 'i', 't', 'y'].isPrefixOf cs then
        some (JValue.num "-Infinity", cs.drop 9)
      else
        match parseNumberTok cs with
        | some (lex, r) => some (JValue.num (String.mk lex), r)
        | none => none

/-- Members of a JSON object, called just after `{` (whitespace skipped).
`acc` holds the members parsed so far. -/
def parseObjFields : Nat → List Char → List (String × JValue) →
    Option (JValue × List Char)
  | 0, _, _ => none
  | fuel + 1, cs, acc =>
    match cs with
    | '}' :: rest => if acc.isEmpty then some (JValue.obj acc, rest) else none
    | '"' :: rest =>
      match parseStringBody rest with
      | none => none
      | some (kchars, r1) =>
        match skipWs r1 with
        | ':' :: r2 =>
          match parseValue fuel (skipWs r2) with
          | none => none
          | some (v, r3) =>
            let acc2 := insertKV acc (String.mk kchars) v
            match skipWs r3 with
            | ',' :: r4 => parseObjFields fuel (skipWs r4) acc2
            | '}' :: r4 => some (JValue.obj acc2, r4)
            | _ => none
        | _ => none
    | _ => none

/-- Elements of a JSON array, called just after `[` (whitespace skipped). -/
def parseArrElems : Nat → List Char → List JValue →
    Option (JValue × List Char)
  | 0, _, _ => none
  | fuel + 1, cs, acc =>
    match cs with
    | ']' :: rest => if acc.isEmpty then some (JValue.arr acc, rest) else none
    | _ =>
      match parseValue fuel cs with
      | none => none
      | some (v, r) =>
        match skipWs r with
        | ',' :: r2 => parseArrElems fuel (skipWs r2) (acc ++ [v])
        | ']' :: r2 => some (JValue.arr (acc ++ [v]), r2)
        | _ => none

end

/-- Model of Python `json.loads` on a character list: parse one value
surrounded by optional whitespace, reject trailing data. The fuel bound
`4 * length + 16` dominates the recursion depth (at most four nested
calls occur per consumed character). -/
def loadsL (cs : List Char) : Option JValue :=
  match parseValue (4 * cs.length + 16) (skipWs cs) with
  | some (v, rest) => if skipWs rest = [] then some v else none
  | none => none

/-- Model of Python `json.loads` on strings. -/
def loads (s : String) : Option JValue := loadsL s.data

/-- Index of the first occurrence of `c` (Python `str.find`, with `none`
for `-1`). -/
def firstIdx (cs : List Char) (c : Char) : Option Nat :=
  match cs with
  | [] => none
  | x :: xs => if x = c then some 0 else (firstIdx xs c).map (· + 1)

/-- Index of the last occurrence of `c` (Python `str.rfind`, with `none`
for `-1`). -/
def lastIdx (cs : List Char) (c : Char) : Option Nat :=
  match cs with
  | [] => none
  | x :: xs =>
    match lastIdx xs c with
    | some i => some (i + 1)
    | none => if x = c then some 0 else none

/-- `parse_json_object` (client.py, lines 104-117) on a character list:
try `json.loads` on the whole input; on failure fall back to the span
from the first `{` to the last `}` inclusive; `none` models the
`ValueError` raised when both fail. -/
def parse_json_objectL (cs : List Char) : Option JValue :=
  match loadsL cs with
  | some v => some v
  | none =>
    match firstIdx cs '{', lastIdx cs '}' with
    | some start, some stop =>
      if start < stop then loadsL ((cs.drop start).take (stop + 1 - start))
      else none
    | _, _ => none

/-- `parse_json_object` (client.py, lines 104-117). -/
def parse_json_object (s : String) : Option JValue :=
  parse_json_objectL s.data

/-- Hex digit character (lowercase), for `\uXXXX` escapes in `dumps`. -/
def hexDig (n : Nat) : Char :=
  if n < 10 then Char.ofNat ('0'.toNat + n) else Char.ofNat ('a'.toNat + n - 10)

/-- Serialization of one character inside a JSON string, as Python
`json.dumps` with `ensure_ascii=False` produces it. -/
def dumpChar (c : Char) : List Char :=
  if c = '"' then ['\\', '"']
  else if c = '\\' then ['\\', '\\']
  else if c = '\n' then ['\\', 'n']
  else if c = '\t' then ['\\', 't']
  else if c = '\r' then ['\\', 'r']
  else if c = '\x08' then ['\\', 'b']
  else if c = '\x0c' then ['\\', 'f']
  else if c.toNat < 0x20 then
    ['\\', 'u', hexDig (c.toNat / 4096 % 16), hexDig (c.toNat / 256 % 16),
     hexDig (c.toNat / 16 % 16), hexDig (c.toNat % 16)]
  else [c]

/-- Serialization of a JSON string literal. -/
def dumpStr (s : String) : String :=
  "\"" ++ String.mk (s.data.flatMap dumpChar) ++ "\""

mutual

/-- Model of Python `json.dumps(v, ensure_ascii=False)` with the default
separators. A number serializes as its stored lexeme (exact for the
integer and plain decimal literals the claims exercise). -/
def dumpsV : JValue → String
  | JValue.null => "null"
  | JValue.bool true => "true"
  | JValue.bool false => "false"
  | JValue.num lex => lex
  | JValue.str s => dumpStr s
  | JValue.arr l => "[" ++ dumpsElems l ++ "]"
  | JValue.obj kvs => "\x7b" ++ dumpsFields kvs ++ "\x7d"

/-- Comma-separated array elements. -/
def dumpsElems : List JValue → String
  | [] => ""
  | [v] => dumpsV v
  | v :: rest => dumpsV v ++ ", " ++ dumpsElems rest

/-- Comma-separated object members. -/
def dumpsFields : List (String × JValue) → String
  | [] => ""
  | [(k, v)] => dumpStr k ++ ": " ++ dumpsV v
  | (k, v) :: rest => dumpStr k ++ ": " ++ dumpsV v ++ ", " ++ dumpsFields rest

end

/-- Does the mantissa of a number lexeme denote zero? (All digits before
any exponent marker are `0`, and there is at least one digit — so the
`NaN` / `Infinity` constants do not count as zero.) -/
def zeroLexeme (lex : String) : Bool :=
  let mant := lex.data.takeWhile (fun c => c ≠ 'e' ∧ c ≠ 'E')
  mant.any Char.isDigit ∧ mant.all (fun c => ¬ c.isDigit ∨ c = '0')

/-- Python truthiness of a decoded JSON value (`bool(v)`). -/
def JValue.truthy : JValue → Bool
  | JValue.null => false
  | JValue.bool b => b
  | JValue.num lex => ¬ zeroLexeme lex
  | JValue.str s => s ≠ ""
  | JValue.arr l => ¬ l.isEmpty
  | JValue.obj kvs => ¬ kvs.isEmpty

/-- Python `a or b` on decoded values. -/
def pyOr (a b : JValue) : JValue := if a.truthy then a else b

/-- Is the value a JSON object? -/
def JValue.isObj : JValue → Bool
  | JValue.obj _ => true
  | _ => false

/-- Is the value a string? -/
def JValue.isString : JValue → Bool
  | JValue.str _ => true
  | _ => false

/-- Python `str(v)` on a decoded value, as far as the loop observes it:
exact for `None`, booleans, strings and integer-lexeme numbers. The
`repr` of lists and dicts is not modelled (it never equals the lowercase
words `"tool"` / `"final"` in Python either, which is all the loop
compares the result against). -/
def pyStr : JValue → String
  | JValue.null => "None"
  | JValue.bool true => "True"
  | JValue.bool false => "False"
  | JValue.num lex => lex
  | JValue.str s => s
  | JValue.arr _ => "<list>"
  | JValue.obj _ => "<dict>"

/-- ASCII lowercasing of one character. -/
def lowerChar (c : Char) : Char :=
  if 'A' ≤ c ∧ c ≤ 'Z' then Char.ofNat (c.toNat + 32) else c

/-- Python `str.lower()`, restricted to ASCII (which is all the loop
ever compares the result against). -/
def pyLower (s : String) : String := String.mk (s.data.map lowerChar)

/-- Python `dict.get`: the value stored for `k`, if present. -/
def jGet (kvs : List (String × JValue)) (k : String) : Option JValue :=
  (kvs.find? (fun p => p.1 = k)).map (fun p => p.2)

/-- Membership of a decoded value among the (string) keys of the tool
dictionary, as Python `tool_name not in tools_by_name` tests it: only a
string can equal a string key. (An unhashable value would raise in
Python; no behavior specified here reaches that case.) -/
def keyMem (v : JValue) (ks : List String) : Bool :=
  match v with
  | JValue.str s => ks.contains s
  | _ => false

/-- The string held by a `JValue.str` (used only after `keyMem` has
established the value is a string). -/
def asStr : JValue → String
  | JValue.str s => s
  | _ => ""

/-- One content part of an MCP tool result, as the loop reads it through
`getattr`: its `type`, `text` and `data` attributes (absent modelled as
`none`) and its `str(...)` rendering. -/
structure ContentPart where
  ctype : Option String
  text : Option String
  data : Option JValue
  strForm : String

/-- Result of `session.call_tool`: a content list, or an exception
carrying `str(e)`. -/
inductive CallResult where
  | ok : List ContentPart → CallResult
  | err : String → CallResult

/-- Reduction of one content part (client.py, lines 211-218): `data` for
`json` parts, `text` for `text` parts, and otherwise
`getattr(c,"text",None) or getattr(c,"data",None) or str(c)`. An absent
attribute appended to the rendered list is Python `None`, i.e. `null`. -/
def renderPart (c : ContentPart) : JValue :=
  if c.ctype = some "json" then c.data.getD JValue.null
  else if c.ctype = some "text" then
    (match c.text with
     | some t => JValue.str t
     | none => JValue.null)
  else
    pyOr
      (pyOr
        (match c.text with
         | some t => JValue.str t
         | none => JValue.null)
        (c.data.getD JValue.null))
      (JValue.str c.strForm)

/-- One transcript message. -/
structure Msg where
  role : String
  content : String
deriving DecidableEq, Repr

/-- The collaborators injected into the loop: the tool catalog keys
(`tools_by_name`), the model (`llm.complete_json`) and the MCP session
(`session.call_tool`). -/
structure Env where
  tools_by_name : List String
  complete_json : List Msg → String
  call_tool : String → JValue → CallResult

/-- Mutable state of one instruction's loop: the transcript `messages`
and `tool_context` from the source, plus two observation-layer logs that
record each oracle query and each remote invocation (in the order they
happen) so that trace properties can be stated. -/
structure LoopState where
  messages : List Msg
  tool_context : List (String × JValue)
  queries : Nat
  invoked : List (String × JValue)

/-- How one instruction's loop ends, one constructor per terminal print
of `run_agent` (client.py, lines 195, 203, 237, 241, 244), plus
`notDict` for the uncaught `AttributeError` when the parsed JSON value
is not an object. -/
inductive Outcome where
  | parseError : Outcome
  | notDict : Outcome
  | unknownTool : JValue → Outcome
  | final : JValue → Outcome
  | unknownAction : String → Outcome
  | stepLimit : Outcome

/-- One instruction's planning/execution loop (client.py, lines
190-244), indexed by the remaining steps of `for step in range(6)`. Fuel
exhaustion is the `for`/`else` branch (`stepLimit`). Each iteration
queries the model, parses its reply, and either invokes a tool and
recurses, or terminates. -/
def runLoop (env : Env) : Nat → LoopState → Outcome × LoopState
  | 0, st => (Outcome.stepLimit, st)
  | n + 1, st =>
    let raw := env.complete_json st.messages
    let st1 : LoopState := { st with queries := st.queries + 1 }
    match parse_json_object raw with
    | none => (Outcome.parseError, st1)
    | some v =>
      match v with
      | JValue.obj kvs =>
        let action := pyLower (pyStr ((jGet kvs "action").getD (JValue.str "")))
        if action = "tool" then
          let tool_name := (jGet kvs "tool_name").getD JValue.null
          let arguments := pyOr ((jGet kvs "arguments").getD JValue.null)
            (JValue.obj [])
          if keyMem tool_name env.tools_by_name then
            let name := asStr tool_name
            let st2 : LoopState :=
              { st1 with invoked := st1.invoked ++ [(name, arguments)] }
            let rendered : JValue :=
              match env.call_tool name arguments with
              | CallResult.ok content_list =>
                let r := content_list.map renderPart
                match r with
                | [x] => x
                | _ => JValue.arr r
              | CallResult.err e => JValue.obj [("error", JValue.str e)]
            let st3 : LoopState :=
              { st2 with
                tool_context := st2.tool_context ++ [(name, rendered)],
                messages := st2.messages ++
                  [⟨"assistant",
                    dumpsV (JValue.obj
                      [("action", JValue.str "tool"),
                       ("tool_name", tool_name),
                       ("arguments", arguments)])⟩,
                   ⟨"user",
                    "Resultado de la tool " ++ name ++ ":\n" ++
                      dumpsV rendered⟩] }
            runLoop env n st3
          else (Outcome.unknownTool tool_name, st1)
        else if action = "final" then
          (Outcome.final
            (pyOr ((jGet kvs "content").getD JValue.null)
              (JValue.str "(sin contenido)")), st1)
        else (Outcome.unknownAction action, st1)
      | _ => (Outcome.notDict, st1)

/-- Processing of one user instruction by `run_agent`: the loop runs
with the source's step bound of 6, starting from the seeded transcript
with empty logs. -/
def run_agent_instruction (env : Env) (seed : List Msg) :
    Outcome × LoopState :=
  runLoop env 6 ⟨seed, [], 0, []⟩

-- draft of loop step lemmas, appended to main file content
/-! ### Spec-side characterization of one tool step -/

def actionOf (kvs : List (String × JValue)) : String :=
  pyLower (pyStr ((jGet kvs "action").getD (JValue.str "")))

def toolNameOf (kvs : List (String × JValue)) : JValue :=
  (jGet kvs "tool_name").getD JValue.null

def argumentsOf (kvs : List (String × JValue)) : JValue :=
  pyOr ((jGet kvs "arguments").getD JValue.null) (JValue.obj [])

def renderedOf (env : Env) (name : String) (args : JValue) : JValue :=
  match env.call_tool name args with
  | CallResult.ok content_list =>
    let r := content_list.map renderPart
    match r with
    | [x] => x
    | _ => JValue.arr r
  | CallResult.err e => JValue.obj [("error", JValue.str e)]

def afterToolStep (env : Env) (st : LoopState)
    (kvs : List (String × JValue)) : LoopState :=
  { messages := st.messages ++
      [⟨"assistant", dumpsV (JValue.obj [("action", JValue.str "tool"),
          ("tool_name", toolNameOf kvs), ("arguments", argumentsOf kvs)])⟩,
       ⟨"user", "Resultado de la tool " ++ asStr (toolNameOf kvs) ++ ":\n" ++
          dumpsV (renderedOf env (asStr (toolNameOf kvs)) (argumentsOf kvs))⟩],
    tool_context := st.tool_context ++
      [(asStr (toolNameOf kvs),
        renderedOf env (asStr (toolNameOf kvs)) (argumentsOf kvs))],
    queries := st.queries + 1,
    invoked := st.invoked ++ [(asStr (toolNameOf kvs), argumentsOf kvs)] }


/-- Spec-side rendering rule for an invocation result: reduce every
content part; if exactly one part is present the Observation is that
single reduced value unwrapped, otherwise the full ordered sequence. -/
def renderResultSpec (parts : List ContentPart) : JValue :=
  if parts.length = 1 then (parts.map renderPart).headD JValue.null
  else JValue.arr (parts.map renderPart)

/-- An oracle that always replies with an Invoke of a catalogued tool,
regardless of the transcript (the scripted oracle of the step-bound
property). -/
def alwaysToolReply (env : Env) : Prop :=
  ∀ msgs : List Msg, ∃ kvs,
    parse_json_object (env.complete_json msgs) = some (JValue.obj kvs) ∧
    actionOf kvs = "tool" ∧
    keyMem (toolNameOf kvs) env.tools_by_name = true

/-- The serialized tool action used by the concrete runs below. -/
def toolJson : String :=
  "\x7b\"action\":\"tool\",\"tool_name\":\"a\",\"arguments\":\x7b\x7d\x7d"

/-- The decoded members of `toolJson`. -/
def toolKvs : List (String × JValue) :=
  [("action", JValue.str "tool"), ("tool_name", JValue.str "a"),
   ("arguments", JValue.obj [])]

/-- The decoded value of `toolJson`. -/
def toolActionVal : JValue := JValue.obj toolKvs

/-- Catalog with one tool `a`, an oracle that always replies with
`toolJson`, and invocations that succeed with no content parts. -/
def envAlwaysTool : Env :=
  { tools_by_name := ["a"],
    complete_json := fun _ => toolJson,
    call_tool := fun _ _ => CallResult.ok [] }

/-- Oracle replying with a tool action that has no `tool_name` field. -/
def envNoToolName : Env :=
  { envAlwaysTool with
    complete_json := fun _ => "\x7b\"action\":\"tool\"\x7d" }

/-- Environment whose invocations always fail with message `boom`. -/
def envAlwaysFail : Env :=
  { envAlwaysTool with call_tool := fun _ _ => CallResult.err "boom" }

/-- Oracle invoking a tool that is not in the catalog. -/
def envUnknownTool : Env :=
  { envAlwaysTool with
    complete_json := fun _ =>
      "\x7b\"action\":\"tool\",\"tool_name\":\"nonexistent\",\"arguments\":\x7b\x7d\x7d" }

/-- Oracle sending `"arguments": null` with its Invoke. -/
def envNullArgs : Env :=
  { envAlwaysTool with
    complete_json := fun _ =>
      "\x7b\"action\":\"tool\",\"tool_name\":\"a\",\"arguments\":null\x7d" }

/-- The decoded members of the reply of `envNullArgs`. -/
def nullArgsKvs : List (String × JValue) :=
  [("action", JValue.str "tool"), ("tool_name", JValue.str "a"),
   ("arguments", JValue.null)]

/-- A content part that is neither a `json` nor a `text` part but
carries truthy structured data (as an image-like part would). -/
def imgPart : ContentPart :=
  { ctype := some "image", text := none, data := some (JValue.num "7"),
    strForm := "<ImageContent>" }

/-- Environment whose invocations return that single non-text part. -/
def envImgPart : Env :=
  { envAlwaysTool with call_tool := fun _ _ => CallResult.ok [imgPart] }

/-- Oracle replying with a final action whose content is empty. -/
def envEmptyFinal : Env :=
  { envAlwaysTool with
    complete_json := fun _ =>
      "\x7b\"action\":\"final\",\"content\":\"\"\x7d" }


/-! ### Lemmas about `firstIdx` / `lastIdx` (Python `find` / `rfind`) -/

theorem firstIdx_get (cs : List Char) (c : Char) (i : Nat)
    (h : firstIdx cs c = some i) :
    ∃ hlt : i < cs.length, cs.get ⟨i, hlt⟩ = c := by
  induction cs generalizing i with
  | nil => simp [firstIdx] at h
  | cons x xs ih =>
    rw [firstIdx] at h
    by_cases hx : x = c
    · simp [hx] at h
      subst h
      exact ⟨Nat.succ_pos _, hx⟩
    · simp [hx] at h
      obtain ⟨i', hi', rfl⟩ := h
      obtain ⟨hlt, hget⟩ := ih i' hi'
      exact ⟨Nat.succ_lt_succ hlt, hget⟩

theorem lastIdx_get (cs : List Char) (c : Char) (i : Nat)
    (h : lastIdx cs c = some i) :
    ∃ hlt : i < cs.length, cs.get ⟨i, hlt⟩ = c := by
  induction cs generalizing i with
  | nil => simp [lastIdx] at h
  | cons x xs ih =>
    rw [lastIdx] at h
    cases hr : lastIdx xs c with
    | some i' =>
      rw [hr] at h
      simp at h
      subst h
      obtain ⟨hlt, hget⟩ := ih i' hr
      exact ⟨Nat.succ_lt_succ hlt, hget⟩
    | none =>
      rw [hr] at h
      by_cases hx : x = c
      · simp [hx] at h
        subst h
        exact ⟨Nat.succ_pos _, hx⟩
      · simp [hx] at h

theorem firstIdx_cons_self (c : Char) (l : List Char) :
    firstIdx (c :: l) c = some 0 := by
  rw [firstIdx]
  simp

theorem firstIdx_append_of_not_mem (p l : List Char) (c : Char) (i : Nat)
    (hp : c ∉ p) (h : firstIdx l c = some i) :
    firstIdx (p ++ l) c = some (p.length + i) := by
  induction p with
  | nil => simpa using h
  | cons x p' ih =>
    have hx : x ≠ c := fun hxc => hp (by simp [hxc])
    have hp' : c ∉ p' := fun hm => hp (List.mem_cons_of_mem _ hm)
    rw [List.cons_append, firstIdx]
    simp only [hx, if_false, ih hp']
    simp [Option.map]
    omega

theorem lastIdx_of_not_mem (l : List Char) (c : Char) (h : c ∉ l) :
    lastIdx l c = none := by
  induction l with
  | nil => rfl
  | cons x xs ih =>
    have hx : x ≠ c := fun hxc => h (by simp [hxc])
    have hxs : c ∉ xs := fun hm => h (List.mem_cons_of_mem _ hm)
    rw [lastIdx, ih hxs]
    simp [hx]

theorem lastIdx_append_right (a b : List Char) (c : Char) (i : Nat)
    (h : lastIdx b c = some i) :
    lastIdx (a ++ b) c = some (a.length + i) := by
  induction a with
  | nil => simpa using h
  | cons x a' ih =>
    rw [List.cons_append, lastIdx, ih]
    simp
    omega

theorem lastIdx_append_of_not_mem (a b : List Char) (c : Char) (hb : c ∉ b) :
    lastIdx (a ++ b) c = lastIdx a c := by
  induction a with
  | nil => simp [lastIdx_of_not_mem b c hb, lastIdx]
  | cons x a' ih =>
    rw [List.cons_append, lastIdx, ih, lastIdx]

theorem lastIdx_of_getLast (l : List Char) (c : Char)
    (h : l.getLast? = some c) : lastIdx l c = some (l.length - 1) := by
  induction l with
  | nil => simp at h
  | cons x xs ih =>
    cases xs with
    | nil =>
      simp at h
      subst h
      simp [lastIdx]
    | cons y t =>
      rw [List.getLast?_cons_cons] at h
      rw [lastIdx, ih h]
      simp

/-! ### Facts about `parse_json_object` (claims C1 and C6) -/

theorem two_le_length_of_head_getLast (j : List Char)
    (hhead : j.head? = some '{') (hlast : j.getLast? = some '}') :
    2 ≤ j.length := by
  cases j with
  | nil => simp at hhead
  | cons x t =>
    cases t with
    | nil =>
      simp at hhead hlast
      rw [hhead] at hlast
      exact absurd hlast (by decide)
    | cons y t2 => simp [Nat.succ_le_succ, Nat.succ_le_of_lt, Nat.succ_pos]

/-- Core of the prose-tolerance property: if the whole input does not
parse as JSON, the prose before the object contains no `{`, the prose
after it contains no `}`, and the object text itself starts with `{`
and ends with `}`, then the fallback span is exactly the object text. -/
theorem parse_json_objectL_wrapped (p j s : List Char) (v : JValue)
    (hj : loadsL j = some v)
    (hhead : j.head? = some '{')
    (hlast : j.getLast? = some '}')
    (hp : '{' ∉ p) (hs : '}' ∉ s)
    (hwhole : loadsL (p ++ j ++ s) = none) :
    parse_json_objectL (p ++ j ++ s) = some v := by
  have hlen : 2 ≤ j.length := two_le_length_of_head_getLast j hhead hlast
  have hfi : firstIdx (p ++ j ++ s) '{' = some (p.length + 0) := by
    rw [List.append_assoc]
    refine firstIdx_append_of_not_mem p (j ++ s) '{' 0 hp ?_
    cases j with
    | nil => simp at hhead
    | cons x t =>
      have hx : x = '{' := by simpa using hhead
      subst hx
      rw [List.cons_append]
      exact firstIdx_cons_self '{' (t ++ s)
  have hli : lastIdx (p ++ j ++ s) '}' = some (p.length + (j.length - 1)) := by
    rw [lastIdx_append_of_not_mem (p ++ j) s '}' hs]
    exact lastIdx_append_right p j '}' (j.length - 1)
      (lastIdx_of_getLast j '}' hlast)
  unfold parse_json_objectL
  rw [hwhole, hfi, hli]
  dsimp only
  have hlt : p.length + 0 < p.length + (j.length - 1) := by omega
  rw [if_pos hlt]
  have hidx : p.length + (j.length - 1) + 1 - (p.length + 0) = j.length := by
    omega
  rw [hidx]
  have hdrop : (p ++ j ++ s).drop (p.length + 0) = j ++ s := by
    rw [List.append_assoc]
    simp [List.drop_left p (j ++ s)]
  rw [hdrop, List.take_left]
  exact hj

/-- C1 counterexample: on the input `"42"` — a string with no balanced
span of braces at all — `parse_json_object` does not fail: the first
stage `json.loads` succeeds and the bare (non-object) number is
returned. This refutes the claim that any string lacking a balanced
span fails with `MalformedAction`, and that the parser only ever
returns a JSON object. -/
theorem C1_counterexample :
    parse_json_object "42" = some (JValue.num "42") ∧
    (JValue.num "42").isObj = false :=
  ⟨rfl, rfl⟩

/-- C1 (amended): the parser either returns the recovered JSON value —
which need not be an object — or fails; any string that is not itself
valid JSON and has no `{` strictly before a `}` fails (the `ValueError`
modelled by `none`). -/
theorem C1_parse_fails_without_brace_span (s : String)
    (h1 : loads s = none)
    (h2 : ¬ ∃ i j : Fin s.data.length, i.1 < j.1 ∧
      s.data.get i = '{' ∧ s.data.get j = '}') :
    parse_json_object s = none := by
  unfold loads at h1
  unfold parse_json_object parse_json_objectL
  rw [h1]
  cases hf : firstIdx s.data '{' with
  | none => rfl
  | some a =>
    cases hl : lastIdx s.data '}' with
    | none => rfl
    | some b =>
      have hnb : ¬ (a < b) := by
        intro hab
        obtain ⟨ha, hga⟩ := firstIdx_get s.data '{' a hf
        obtain ⟨hb, hgb⟩ := lastIdx_get s.data '}' b hl
        exact h2 ⟨⟨a, ha⟩, ⟨b, hb⟩, hab, hga, hgb⟩
      dsimp only
      rw [if_neg hnb]

/-- Witness for C1: a concrete brace-free non-JSON string fails. -/
theorem C1_witness : parse_json_object "pure prose" = none :=
  C1_parse_fails_without_brace_span "pure prose" rfl (by decide)

/-- C6 counterexample: with empty prose before and the single suffix
`"}"` after, the wrapped string no longer parses to the same action —
the fallback span now runs to the appended `}` and is not valid JSON,
so parsing fails although `toolJson` alone parses fine. This refutes
the claim for arbitrary prose suffixes. -/
theorem C6_counterexample :
    parse_json_object (toolJson ++ "\x7d") = none ∧
    parse_json_object toolJson = some toolActionVal :=
  ⟨rfl, rfl⟩

/-- C6 (amended): wrapping a well-formed JSON object string (one that
itself starts with `{` and ends with `}`) in prose recovers the same
value as parsing it alone, provided the leading prose contains no `{`,
the trailing prose contains no `}`, and the wrapped string is not
itself valid JSON (the counexamples force each proviso: suffix `"}"`,
and bracketing prose such as `"["` / `"]"` that makes the whole input
parse as a different value). -/
theorem C6_prose_wrapping_preserves_parse (p j s : String) (v : JValue)
    (hj : loads j = some v)
    (hhead : j.data.head? = some '{')
    (hlast : j.data.getLast? = some '}')
    (hp : '{' ∉ p.data) (hs : '}' ∉ s.data)
    (hwhole : loads (p ++ j ++ s) = none) :
    parse_json_object (p ++ j ++ s) = parse_json_object j ∧
    parse_json_object (p ++ j ++ s) = some v := by
  unfold loads at hj hwhole
  have hdata : (p ++ j ++ s).data = p.data ++ j.data ++ s.data := rfl
  rw [hdata] at hwhole
  have hmain : parse_json_object (p ++ j ++ s) = some v := by
    show parse_json_objectL (p ++ j ++ s).data = some v
    rw [hdata]
    exact parse_json_objectL_wrapped p.data j.data s.data v hj hhead hlast
      hp hs hwhole
  have hj2 : parse_json_object j = some v := by
    show parse_json_objectL j.data = some v
    unfold parse_json_objectL
    rw [hj]
  exact ⟨hmain.trans hj2.symm, hmain⟩

/-- Witness for C6: a concrete prose-wrapped tool action parses to the
same value as the bare JSON object. -/
theorem C6_witness :
    parse_json_object ("Here is the action: " ++ toolJson ++ " Done.") =
      parse_json_object toolJson ∧
    parse_json_object toolJson = some toolActionVal :=
  ⟨(C6_prose_wrapping_preserves_parse "Here is the action: " toolJson " Done."
      toolActionVal rfl rfl rfl (by decide) (by decide) rfl).1, rfl⟩

theorem runLoop_tool_step (env : Env) (n : Nat) (st : LoopState)
    (kvs : List (String × JValue))
    (hparse : parse_json_object (env.complete_json st.messages) =
      some (JValue.obj kvs))
    (hact : actionOf kvs = "tool")
    (hmem : keyMem (toolNameOf kvs) env.tools_by_name = true) :
    runLoop env (n + 1) st = runLoop env n (afterToolStep env st kvs) := by
  rw [runLoop]
  simp only [hparse]
  rw [actionOf] at hact
  rw [toolNameOf] at hmem
  simp only [hact, if_pos rfl, hmem, if_true]
  rfl

theorem runLoop_parse_error_step (env : Env) (n : Nat) (st : LoopState)
    (hparse : parse_json_object (env.complete_json st.messages) = none) :
    runLoop env (n + 1) st =
      (Outcome.parseError, { st with queries := st.queries + 1 }) := by
  rw [runLoop]
  simp only [hparse]

theorem runLoop_unknown_tool_step (env : Env) (n : Nat) (st : LoopState)
    (kvs : List (String × JValue))
    (hparse : parse_json_object (env.complete_json st.messages) =
      some (JValue.obj kvs))
    (hact : actionOf kvs = "tool")
    (hmem : keyMem (toolNameOf kvs) env.tools_by_name = false) :
    runLoop env (n + 1) st = (Outcome.unknownTool (toolNameOf kvs),
      { st with queries := st.queries + 1 }) := by
  rw [runLoop]
  simp only [hparse]
  rw [actionOf] at hact
  simp only [hact, eq_self_iff_true, if_true]
  rw [toolNameOf] at hmem
  simp only [hmem, Bool.false_eq_true, if_false, toolNameOf]

theorem runLoop_final_step (env : Env) (n : Nat) (st : LoopState)
    (kvs : List (String × JValue))
    (hparse : parse_json_object (env.complete_json st.messages) =
      some (JValue.obj kvs))
    (hact : actionOf kvs = "final") :
    runLoop env (n + 1) st =
      (Outcome.final (pyOr ((jGet kvs "content").getD JValue.null)
        (JValue.str "(sin contenido)")),
       { st with queries := st.queries + 1 }) := by
  rw [runLoop]
  simp only [hparse]
  rw [actionOf] at hact
  simp only [hact, eq_self_iff_true, if_true]
  rw [if_neg (by decide : ¬ ("final" = "tool"))]

theorem runLoop_queries_le (env : Env) (n : Nat) (st : LoopState) :
    (runLoop env n st).2.queries ≤ st.queries + n := by
  induction n generalizing st with
  | zero => simp [runLoop]
  | succ n ih =>
    rw [runLoop]
    split
    · dsimp only
      omega
    · split
      · dsimp only
        split
        · split
          · refine le_trans (ih _) ?_
            dsimp only
            omega
          · dsimp only
            omega
        · split
          · dsimp only
            omega
          · dsimp only
            omega
      · dsimp only
        omega

theorem runLoop_queries_ge (env : Env) (n : Nat) (st : LoopState) :
    st.queries ≤ (runLoop env n st).2.queries := by
  induction n generalizing st with
  | zero => simp [runLoop]
  | succ n ih =>
    rw [runLoop]
    split
    · dsimp only
      omega
    · split
      · dsimp only
        split
        · split
          · refine le_trans ?_ (ih _)
            dsimp only
            omega
          · dsimp only
            omega
        · split
          · dsimp only
            omega
          · dsimp only
            omega
      · dsimp only
        omega

theorem runLoop_queries_succ_ge (env : Env) (n : Nat) (st : LoopState)
    (h : 1 ≤ n) : st.queries + 1 ≤ (runLoop env n st).2.queries := by
  cases n with
  | zero => omega
  | succ n =>
    rw [runLoop]
    split
    · dsimp only
      omega
    · split
      · dsimp only
        split
        · split
          · refine le_trans ?_ (runLoop_queries_ge env n _)
            dsimp only
            omega
          · dsimp only
            omega
        · split
          · dsimp only
            omega
          · dsimp only
            omega
      · dsimp only
        omega

theorem runLoop_invoked_prefix (env : Env) (n : Nat) (st : LoopState) :
    st.invoked <+: (runLoop env n st).2.invoked := by
  induction n generalizing st with
  | zero => simp [runLoop]
  | succ n ih =>
    rw [runLoop]
    split
    · simp
    · split
      · dsimp only
        split
        · split
          · refine List.IsPrefix.trans ?_ (ih _)
            dsimp only
            simp
          · simp
        · split
          · simp
          · simp
      · simp

/-! ### Scripted-oracle runs -/

theorem runLoop_always_tool (env : Env) (H : alwaysToolReply env)
    (n : Nat) (st : LoopState) :
    (runLoop env n st).1 = Outcome.stepLimit ∧
    (runLoop env n st).2.queries = st.queries + n ∧
    (runLoop env n st).2.invoked.length = st.invoked.length + n := by
  induction n generalizing st with
  | zero => simp [runLoop]
  | succ n ih =>
    obtain ⟨kvs, hp, ha, hm⟩ := H st.messages
    rw [runLoop_tool_step env n st kvs hp ha hm]
    obtain ⟨h1, h2, h3⟩ := ih (afterToolStep env st kvs)
    refine ⟨h1, ?_, ?_⟩
    · rw [h2]
      dsimp only [afterToolStep]
      omega
    · rw [h3]
      dsimp only [afterToolStep]
      simp
      omega

theorem runLoop_const_tool (env : Env) (kvs : List (String × JValue))
    (hconst : ∀ msgs : List Msg,
      parse_json_object (env.complete_json msgs) = some (JValue.obj kvs))
    (ha : actionOf kvs = "tool")
    (hm : keyMem (toolNameOf kvs) env.tools_by_name = true)
    (n : Nat) (st : LoopState) :
    (runLoop env n st).1 = Outcome.stepLimit ∧
    (runLoop env n st).2.queries = st.queries + n ∧
    (runLoop env n st).2.invoked = st.invoked ++
      List.replicate n (asStr (toolNameOf kvs), argumentsOf kvs) ∧
    (runLoop env n st).2.tool_context = st.tool_context ++
      List.replicate n (asStr (toolNameOf kvs),
        renderedOf env (asStr (toolNameOf kvs)) (argumentsOf kvs)) := by
  induction n generalizing st with
  | zero => simp [runLoop]
  | succ n ih =>
    rw [runLoop_tool_step env n st kvs (hconst st.messages) ha hm]
    obtain ⟨h1, h2, h3, h4⟩ := ih (afterToolStep env st kvs)
    refine ⟨h1, ?_, ?_, ?_⟩
    · rw [h2]
      dsimp only [afterToolStep]
      omega
    · rw [h3]
      dsimp only [afterToolStep]
      rw [List.append_assoc]
      congr 1
    · rw [h4]
      dsimp only [afterToolStep]
      rw [List.append_assoc]
      congr 1

/-! ### Claims about the execution loop -/

/-- C3: for every oracle and instruction the loop performs at most 6
Planning→Acting cycles (at most 6 oracle queries); and for an oracle
that always emits a valid Invoke of a catalogued tool and never a
Final, the loop performs exactly 6 oracle queries and exactly 6 remote
invocations — not 7 — and ends in the step-limit abort reporting that
no final answer was reached. -/
theorem C3_step_bound (env : Env) (seed : List Msg)
    (H : alwaysToolReply env) :
    (∀ e2 : Env, ∀ s2 : List Msg,
      (run_agent_instruction e2 s2).2.queries ≤ 6) ∧
    (run_agent_instruction env seed).1 = Outcome.stepLimit ∧
    (run_agent_instruction env seed).2.queries = 6 ∧
    (run_agent_instruction env seed).2.invoked.length = 6 := by
  refine ⟨fun e2 s2 => ?_, ?_, ?_, ?_⟩
  · have h := runLoop_queries_le e2 6 ⟨s2, [], 0, []⟩
    simpa [run_agent_instruction] using h
  · exact (runLoop_always_tool env H 6 ⟨seed, [], 0, []⟩).1
  · exact (runLoop_always_tool env H 6 ⟨seed, [], 0, []⟩).2.1
  · exact (runLoop_always_tool env H 6 ⟨seed, [], 0, []⟩).2.2

/-- Witness for C3: the scripted always-Invoke oracle on the one-tool
catalog runs exactly 6 invocations and ends in the step-limit abort. -/
theorem C3_witness :
    (run_agent_instruction envAlwaysTool []).1 = Outcome.stepLimit ∧
    (run_agent_instruction envAlwaysTool []).2.queries = 6 ∧
    (run_agent_instruction envAlwaysTool []).2.invoked.length = 6 :=
  (C3_step_bound envAlwaysTool []
    (fun _ => ⟨toolKvs, rfl, rfl, rfl⟩)).2

/-- C5: an Invoke whose operation name is not a key of the catalog ends
the instruction with the unknown-tool abort immediately after the
oracle query, and the invocation log is unchanged — no remote
invocation is performed for that action. -/
theorem C5_unknown_operation (env : Env) (n : Nat) (st : LoopState)
    (kvs : List (String × JValue))
    (hparse : parse_json_object (env.complete_json st.messages) =
      some (JValue.obj kvs))
    (hact : actionOf kvs = "tool")
    (hmem : keyMem (toolNameOf kvs) env.tools_by_name = false) :
    runLoop env (n + 1) st = (Outcome.unknownTool (toolNameOf kvs),
      { st with queries := st.queries + 1 }) ∧
    (runLoop env (n + 1) st).2.invoked = st.invoked := by
  have h := runLoop_unknown_tool_step env n st kvs hparse hact hmem
  exact ⟨h, by rw [h]⟩

/-- Witness for C5: the scripted oracle invoking `nonexistent` ends in
the unknown-tool abort with an empty invocation log. -/
theorem C5_witness :
    run_agent_instruction envUnknownTool [] =
      (Outcome.unknownTool (JValue.str "nonexistent"),
       { messages := [], tool_context := [], queries := 1, invoked := [] }) ∧
    (run_agent_instruction envUnknownTool []).2.invoked = [] :=
  C5_unknown_operation envUnknownTool 5 ⟨[], [], 0, []⟩
    [("action", JValue.str "tool"),
     ("tool_name", JValue.str "nonexistent"),
     ("arguments", JValue.obj [])] rfl rfl rfl

/-- C2 counterexample: the oracle reply with action `tool` and no
`tool_name` field parses fine — so the malformed-action path is not
taken — and the run ends in the unknown-tool abort
(`Tool desconocida: None`, the UnknownOperation outcome), because the
missing name, `None`, is not a catalog key. -/
theorem C2_counterexample :
    parse_json_object (envNoToolName.complete_json []) =
      some (JValue.obj [("action", JValue.str "tool")]) ∧
    (run_agent_instruction envNoToolName []).1 =
      Outcome.unknownTool JValue.null := by
  constructor
  · rfl
  · have h := runLoop_unknown_tool_step envNoToolName 5 ⟨[], [], 0, []⟩
      [("action", JValue.str "tool")] rfl rfl rfl
    show (runLoop envNoToolName (5 + 1) ⟨[], [], 0, []⟩).1 =
      Outcome.unknownTool JValue.null
    rw [h]
    rfl

/-- C2 (amended): a parsed tool action with no `tool_name` field ends
the instruction through the unknown-tool abort (UnknownOperation), not
the malformed-action abort: the missing name is `None`, which is never
a key of the catalog. -/
theorem C2_missing_tool_name_unknown_operation (env : Env) (n : Nat)
    (st : LoopState) (kvs : List (String × JValue))
    (hparse : parse_json_object (env.complete_json st.messages) =
      some (JValue.obj kvs))
    (hact : actionOf kvs = "tool")
    (hmiss : jGet kvs "tool_name" = none) :
    runLoop env (n + 1) st = (Outcome.unknownTool JValue.null,
      { st with queries := st.queries + 1 }) := by
  have hname : toolNameOf kvs = JValue.null := by
    rw [toolNameOf, hmiss]
    rfl
  have h := runLoop_unknown_tool_step env n st kvs hparse hact
    (by rw [hname]; rfl)
  rw [h, hname]

/-- Witness for C2's amended statement, at a smaller step budget. -/
theorem C2_witness :
    runLoop envNoToolName 3 ⟨[], [], 0, []⟩ =
      (Outcome.unknownTool JValue.null,
       { messages := [], tool_context := [], queries := 1, invoked := [] }) :=
  C2_missing_tool_name_unknown_operation envNoToolName 2 ⟨[], [], 0, []⟩
    [("action", JValue.str "tool")] rfl rfl rfl

/-- C9: whether the invocation succeeds or fails, one tool step appends
exactly two messages to the transcript, in order: an assistant message
holding the deterministic serialization of the action taken (operation
name and arguments), then a user message carrying the serialized
Observation. -/
theorem C9_two_transcript_messages (env : Env) (n : Nat) (st : LoopState)
    (kvs : List (String × JValue))
    (hparse : parse_json_object (env.complete_json st.messages) =
      some (JValue.obj kvs))
    (hact : actionOf kvs = "tool")
    (hmem : keyMem (toolNameOf kvs) env.tools_by_name = true) :
    runLoop env (n + 1) st = runLoop env n (afterToolStep env st kvs) ∧
    (afterToolStep env st kvs).messages = st.messages ++
      [⟨"assistant", dumpsV (JValue.obj [("action", JValue.str "tool"),
          ("tool_name", toolNameOf kvs), ("arguments", argumentsOf kvs)])⟩,
       ⟨"user", "Resultado de la tool " ++ asStr (toolNameOf kvs) ++ ":\n" ++
          dumpsV (renderedOf env (asStr (toolNameOf kvs))
            (argumentsOf kvs))⟩] :=
  ⟨runLoop_tool_step env n st kvs hparse hact hmem, rfl⟩

/-- Witness for C9: the two appended messages of one concrete step. -/
theorem C9_witness :
    runLoop envAlwaysTool 1 ⟨[], [], 0, []⟩ =
      runLoop envAlwaysTool 0
        (afterToolStep envAlwaysTool ⟨[], [], 0, []⟩ toolKvs) ∧
    (afterToolStep envAlwaysTool ⟨[], [], 0, []⟩ toolKvs).messages =
      [] ++ [⟨"assistant", dumpsV (JValue.obj [("action", JValue.str "tool"),
          ("tool_name", toolNameOf toolKvs),
          ("arguments", argumentsOf toolKvs)])⟩,
       ⟨"user", "Resultado de la tool " ++ asStr (toolNameOf toolKvs) ++
          ":\n" ++ dumpsV (renderedOf envAlwaysTool
            (asStr (toolNameOf toolKvs)) (argumentsOf toolKvs))⟩] :=
  C9_two_transcript_messages envAlwaysTool 0 ⟨[], [], 0, []⟩ toolKvs
    rfl rfl rfl

/-- C4 counterexample: with the scripted oracle always invoking tool
`a` and every invocation failing with `boom`, all six steps record the
error Observation, but after the sixth failing invocation no further
oracle query occurs (exactly 6 queries, not 7) and the instruction is
aborted by the step limit — refuting, for the failing Invoke of the
final step, that "a further oracle query occurs rather than aborting
the instruction". -/
theorem C4_counterexample :
    (run_agent_instruction envAlwaysFail []).1 = Outcome.stepLimit ∧
    (run_agent_instruction envAlwaysFail []).2.queries = 6 ∧
    (run_agent_instruction envAlwaysFail []).2.tool_context =
      List.replicate 6 ("a", JValue.obj [("error", JValue.str "boom")]) := by
  obtain ⟨h1, h2, h3, h4⟩ := runLoop_const_tool envAlwaysFail toolKvs
    (fun _ => rfl) rfl rfl 6 ⟨[], [], 0, []⟩
  have hrw : run_agent_instruction envAlwaysFail [] =
      runLoop envAlwaysFail 6 ⟨[], [], 0, []⟩ := rfl
  rw [hrw, h1, h2, h4]
  exact ⟨rfl, rfl, rfl⟩

/-- C4 (amended): when the invocation of a catalogued tool fails with
message `m`, the failure is not propagated: the Observation recorded in
`tool_context` and serialized into the appended user message is the
object `\x7b"error": m\x7d`, and the loop returns to the top of the
loop; a further oracle query follows whenever at least one step
remains, while a failure on the last allowed step is followed by the
step-limit abort with no further query. -/
theorem C4_error_folded_into_observation (env : Env) (n : Nat)
    (st : LoopState) (kvs : List (String × JValue)) (m : String)
    (hparse : parse_json_object (env.complete_json st.messages) =
      some (JValue.obj kvs))
    (hact : actionOf kvs = "tool")
    (hmem : keyMem (toolNameOf kvs) env.tools_by_name = true)
    (hcall : env.call_tool (asStr (toolNameOf kvs)) (argumentsOf kvs) =
      CallResult.err m) :
    runLoop env (n + 1) st = runLoop env n (afterToolStep env st kvs) ∧
    (afterToolStep env st kvs).tool_context = st.tool_context ++
      [(asStr (toolNameOf kvs), JValue.obj [("error", JValue.str m)])] ∧
    (afterToolStep env st kvs).messages = st.messages ++
      [⟨"assistant", dumpsV (JValue.obj [("action", JValue.str "tool"),
          ("tool_name", toolNameOf kvs), ("arguments", argumentsOf kvs)])⟩,
       ⟨"user", "Resultado de la tool " ++ asStr (toolNameOf kvs) ++ ":\n" ++
          dumpsV (JValue.obj [("error", JValue.str m)])⟩] ∧
    (1 ≤ n → st.queries + 2 ≤ (runLoop env (n + 1) st).2.queries) := by
  have hrend : renderedOf env (asStr (toolNameOf kvs)) (argumentsOf kvs) =
      JValue.obj [("error", JValue.str m)] := by
    rw [renderedOf, hcall]
  have hstep := runLoop_tool_step env n st kvs hparse hact hmem
  refine ⟨hstep, ?_, ?_, ?_⟩
  · dsimp only [afterToolStep]
    rw [hrend]
  · dsimp only [afterToolStep]
    rw [hrend]
  · intro hn
    rw [hstep]
    have h2 := runLoop_queries_succ_ge env n (afterToolStep env st kvs) hn
    have hq : (afterToolStep env st kvs).queries = st.queries + 1 := rfl
    omega

/-- Witness for C4's amended statement: a concrete failing invocation
with one step remaining records the error Observation and is followed
by a second oracle query. -/
theorem C4_witness :
    runLoop envAlwaysFail 2 ⟨[], [], 0, []⟩ =
      runLoop envAlwaysFail 1
        (afterToolStep envAlwaysFail ⟨[], [], 0, []⟩ toolKvs) ∧
    (afterToolStep envAlwaysFail ⟨[], [], 0, []⟩ toolKvs).tool_context =
      [] ++ [("a", JValue.obj [("error", JValue.str "boom")])] ∧
    0 + 2 ≤ (runLoop envAlwaysFail 2 ⟨[], [], 0, []⟩).2.queries := by
  have h := C4_error_folded_into_observation envAlwaysFail 1 ⟨[], [], 0, []⟩
    toolKvs "boom" rfl rfl rfl rfl
  exact ⟨h.1, h.2.1, h.2.2.2 (by decide)⟩

/-- C7 counterexample: the oracle's reply carries `"arguments": null`,
yet the first (and every) invocation is performed with the empty
mapping `\x7b\x7d` — the loop's `or \x7b\x7d` default replaced the
null value, refuting "no defaulting, including when the arguments
field is absent or null". -/
theorem C7_counterexample :
    parse_json_object (envNullArgs.complete_json []) =
      some (JValue.obj nullArgsKvs) ∧
    (run_agent_instruction envNullArgs []).2.invoked.head? =
      some ("a", JValue.obj []) := by
  obtain ⟨h1, h2, h3, h4⟩ := runLoop_const_tool envNullArgs nullArgsKvs
    (fun _ => rfl) rfl rfl 6 ⟨[], [], 0, []⟩
  have hrw : run_agent_instruction envNullArgs [] =
      runLoop envNullArgs 6 ⟨[], [], 0, []⟩ := rfl
  rw [hrw, h3]
  exact ⟨rfl, rfl⟩

/-- C7 (amended): the loop invokes the tool with the parsed arguments
value unmodified when that value is truthy, but substitutes the empty
mapping whenever the arguments field is absent, null, or otherwise
falsy (the `or \x7b\x7d` default on line 201). -/
theorem C7_arguments_defaulting (env : Env) (n : Nat) (st : LoopState)
    (kvs : List (String × JValue))
    (hparse : parse_json_object (env.complete_json st.messages) =
      some (JValue.obj kvs))
    (hact : actionOf kvs = "tool")
    (hmem : keyMem (toolNameOf kvs) env.tools_by_name = true) :
    runLoop env (n + 1) st = runLoop env n (afterToolStep env st kvs) ∧
    (afterToolStep env st kvs).invoked = st.invoked ++
      [(asStr (toolNameOf kvs), argumentsOf kvs)] ∧
    (∀ a : JValue, jGet kvs "arguments" = some a → a.truthy = true →
      argumentsOf kvs = a) ∧
    (∀ a : JValue, jGet kvs "arguments" = some a → a.truthy = false →
      argumentsOf kvs = JValue.obj []) ∧
    (jGet kvs "arguments" = none → argumentsOf kvs = JValue.obj []) := by
  refine ⟨runLoop_tool_step env n st kvs hparse hact hmem, rfl, ?_, ?_, ?_⟩
  · intro a ha htr
    rw [argumentsOf, ha]
    simp [pyOr, htr]
  · intro a ha htr
    rw [argumentsOf, ha]
    simp [pyOr, htr]
  · intro ha
    rw [argumentsOf, ha]
    rfl

/-- Witness for C7's amended statement: a concrete step whose null
arguments are replaced by the empty mapping before the invocation. -/
theorem C7_witness :
    runLoop envNullArgs 1 ⟨[], [], 0, []⟩ =
      runLoop envNullArgs 0
        (afterToolStep envNullArgs ⟨[], [], 0, []⟩ nullArgsKvs) ∧
    (afterToolStep envNullArgs ⟨[], [], 0, []⟩ nullArgsKvs).invoked =
      [] ++ [("a", argumentsOf nullArgsKvs)] ∧
    argumentsOf nullArgsKvs = JValue.obj [] := by
  have h := C7_arguments_defaulting envNullArgs 0 ⟨[], [], 0, []⟩
    nullArgsKvs rfl rfl rfl
  exact ⟨h.1, h.2.1, h.2.2.2.1 JValue.null rfl rfl⟩

/-- C8 counterexample: a single content part that is neither a `json`
nor a `text` part but carries truthy structured data is reduced to that
data — here the number 7 — so the Observation recorded for the
invocation is not a string form, refuting "a string form otherwise". -/
theorem C8_counterexample :
    renderPart imgPart = JValue.num "7" ∧
    (JValue.num "7").isString = false ∧
    (run_agent_instruction envImgPart []).2.tool_context.head? =
      some ("a", JValue.num "7") := by
  obtain ⟨h1, h2, h3, h4⟩ := runLoop_const_tool envImgPart toolKvs
    (fun _ => rfl) rfl rfl 6 ⟨[], [], 0, []⟩
  have hrw : run_agent_instruction envImgPart [] =
      runLoop envImgPart 6 ⟨[], [], 0, []⟩ := rfl
  rw [hrw, h4]
  exact ⟨rfl, rfl, rfl⟩

/-- C8 (amended): at a successful invocation the recorded Observation
follows the rendering rule: every part is reduced by `renderPart`, a
one-part result is unwrapped to its single reduced value, and any other
length yields the full ordered sequence; the per-part reduction is
`data` for json parts, `text` for text parts, and for any other part
Python's `text or data or str(c)` — its text when truthy, else its data
when truthy, else its string form (so not always a string form). -/
theorem C8_rendering (env : Env) (n : Nat) (st : LoopState)
    (kvs : List (String × JValue)) (parts : List ContentPart)
    (hparse : parse_json_object (env.complete_json st.messages) =
      some (JValue.obj kvs))
    (hact : actionOf kvs = "tool")
    (hmem : keyMem (toolNameOf kvs) env.tools_by_name = true)
    (hcall : env.call_tool (asStr (toolNameOf kvs)) (argumentsOf kvs) =
      CallResult.ok parts) :
    runLoop env (n + 1) st = runLoop env n (afterToolStep env st kvs) ∧
    (afterToolStep env st kvs).tool_context = st.tool_context ++
      [(asStr (toolNameOf kvs), renderResultSpec parts)] ∧
    (∀ c : ContentPart, c.ctype = some "json" →
      renderPart c = c.data.getD JValue.null) ∧
    (∀ c : ContentPart, c.ctype = some "text" →
      renderPart c = (match c.text with
        | some t => JValue.str t
        | none => JValue.null)) ∧
    (∀ c : ContentPart, c.ctype ≠ some "json" → c.ctype ≠ some "text" →
      renderPart c = pyOr (pyOr (match c.text with
          | some t => JValue.str t
          | none => JValue.null) (c.data.getD JValue.null))
        (JValue.str c.strForm)) := by
  have hrend : renderedOf env (asStr (toolNameOf kvs)) (argumentsOf kvs) =
      renderResultSpec parts := by
    rw [renderedOf, hcall, renderResultSpec]
    cases parts with
    | nil => rfl
    | cons p t =>
      cases t with
      | nil => rfl
      | cons q t2 => simp
  refine ⟨runLoop_tool_step env n st kvs hparse hact hmem, ?_, ?_, ?_, ?_⟩
  · dsimp only [afterToolStep]
    rw [hrend]
  · intro c hc
    rw [renderPart, if_pos hc]
  · intro c hc
    rw [renderPart, if_neg (by simp [hc]), if_pos hc]
  · intro c hc1 hc2
    rw [renderPart, if_neg hc1, if_neg hc2]

/-- Witness for C8's amended statement: the single non-text part is
unwrapped and its reduced value recorded. -/
theorem C8_witness :
    runLoop envImgPart 1 ⟨[], [], 0, []⟩ =
      runLoop envImgPart 0
        (afterToolStep envImgPart ⟨[], [], 0, []⟩ toolKvs) ∧
    (afterToolStep envImgPart ⟨[], [], 0, []⟩ toolKvs).tool_context =
      [] ++ [("a", renderResultSpec [imgPart])] := by
  have h := C8_rendering envImgPart 0 ⟨[], [], 0, []⟩ toolKvs [imgPart]
    rfl rfl rfl rfl
  exact ⟨h.1, h.2.1⟩

/-- C10: a final action whose content field is absent, null, or the
empty string still concludes the instruction, and the rendered final
content is the fixed placeholder `(sin contenido)` instead of the
missing or empty content. -/
theorem C10_empty_final_placeholder (env : Env) (n : Nat) (st : LoopState)
    (kvs : List (String × JValue))
    (hparse : parse_json_object (env.complete_json st.messages) =
      some (JValue.obj kvs))
    (hact : actionOf kvs = "final")
    (hc : jGet kvs "content" = none ∨ jGet kvs "content" = some JValue.null ∨
      jGet kvs "content" = some (JValue.str "")) :
    runLoop env (n + 1) st = (Outcome.final (JValue.str "(sin contenido)"),
      { st with queries := st.queries + 1 }) := by
  rw [runLoop_final_step env n st kvs hparse hact]
  rcases hc with hc | hc | hc <;> rw [hc] <;> rfl

/-- Witness for C10: the reply with empty content concludes with the
placeholder. -/
theorem C10_witness :
    run_agent_instruction envEmptyFinal [] =
      (Outcome.final (JValue.str "(sin contenido)"),
       { messages := [], tool_context := [], queries := 1, invoked := [] }) :=
  C10_empty_final_placeholder envEmptyFinal 5 ⟨[], [], 0, []⟩
    [("action", JValue.str "final"), ("content", JValue.str "")]
    rfl rfl (Or.inr (Or.inr rfl))
